import Mathlib

/-!
Verification of the two notebooks of this repository: the Pinecone
retrieval-augmented-generation notebook (dataset loading, batched
embedding upload with a retry loop, keyword-expansion search, prompt
construction) and the structured-JSON tool-use notebook (tool_use
extraction loops and tool input schemas).  Python code is shallowly
embedded: lists become `List`, dictionaries become association lists,
a fallible expression becomes `Option`/`Except`, and the external
services (embedding model, vector index, language model) are abstract
function parameters.
-/

/-! ### Decimal rendering of naturals

The notebook builds vector ids with the f-string `description_{idx}`,
whose number part is the decimal rendering of `idx`; in the embedding
this is `Nat.repr`.  We prove `Nat.repr` injective via a decode
round-trip, which the id-uniqueness claim needs.
-/

/-- Numeric value of a decimal digit character (48 is the code of the zero digit). -/
def digitVal (c : Char) : Nat := c.toNat - 48

/-- Decode a most-significant-first list of decimal digit characters. -/
def decodeDec (l : List Char) : Nat := l.foldl (fun acc c => 10 * acc + digitVal c) 0

theorem digitVal_digitChar : ∀ d : Nat, d < 10 → digitVal (Nat.digitChar d) = d := by decide

theorem toDigitsCore_acc (b : Nat) :
    ∀ (fuel n : Nat) (ds : List Char),
      Nat.toDigitsCore b fuel n ds = Nat.toDigitsCore b fuel n [] ++ ds := by
  intro fuel
  induction fuel with
  | zero => intro n ds; simp [Nat.toDigitsCore]
  | succ f ih =>
    intro n ds
    simp only [Nat.toDigitsCore]
    by_cases h : n / b = 0
    · simp [h]
    · simp only [h, if_false]
      rw [ih (n / b) (Nat.digitChar (n % b) :: ds), ih (n / b) [Nat.digitChar (n % b)]]
      simp

theorem toDigitsCore_fuel (b : Nat) (hb : 1 < b) :
    ∀ (fuel n : Nat) (ds : List Char), n < fuel →
      Nat.toDigitsCore b fuel n ds = Nat.toDigitsCore b (n + 1) n ds := by
  intro fuel
  induction fuel using Nat.strong_induction_on with
  | _ fuel ih =>
    intro n ds h
    match fuel, h with
    | f + 1, h =>
      simp only [Nat.toDigitsCore]
      by_cases h0 : n / b = 0
      · simp [h0]
      · simp only [h0, if_false]
        have hn0 : 0 < n := by
          rcases Nat.eq_zero_or_pos n with h1 | h1
          · exact absurd (by simp [h1]) h0
          · exact h1
        have hnb : n / b < n := Nat.div_lt_self hn0 hb
        have h1 : n / b < f := lt_of_lt_of_le hnb (Nat.le_of_lt_succ h)
        rw [ih f (Nat.lt_succ_self f) (n / b) _ h1,
            ih n h (n / b) _ hnb]

theorem toDigits_of_lt (b n : Nat) (h : n < b) :
    Nat.toDigits b n = [Nat.digitChar n] := by
  have hb : 0 < b := Nat.pos_of_ne_zero (by omega)
  simp [Nat.toDigits, Nat.toDigitsCore, Nat.div_eq_of_lt h, Nat.mod_eq_of_lt h]

theorem toDigits_of_ge (b n : Nat) (hb : 1 < b) (h : b ≤ n) :
    Nat.toDigits b n = Nat.toDigits b (n / b) ++ [Nat.digitChar (n % b)] := by
  have hn0 : 0 < n := by omega
  have hdiv : n / b ≠ 0 := by
    have := Nat.div_pos h (by omega)
    omega
  have hlt : n / b < n := Nat.div_lt_self hn0 hb
  show Nat.toDigitsCore b (n + 1) n [] = _
  simp only [Nat.toDigitsCore, hdiv, if_false]
  rw [toDigitsCore_fuel b hb n (n / b) _ hlt, toDigitsCore_acc]
  rfl

theorem decodeDec_toDigits : ∀ n : Nat, decodeDec (Nat.toDigits 10 n) = n := by
  intro n
  induction n using Nat.strong_induction_on with
  | _ n ih =>
    by_cases h : n < 10
    · rw [toDigits_of_lt 10 n h]
      simp [decodeDec, digitVal_digitChar n h]
    · rw [toDigits_of_ge 10 n (by omega) (by omega)]
      have hlt : n / 10 < n := Nat.div_lt_self (by omega) (by omega)
      have hmod : n % 10 < 10 := Nat.mod_lt n (by omega)
      simp only [decodeDec, List.foldl_append, List.foldl_cons, List.foldl_nil]
      rw [show (List.foldl (fun acc c => 10 * acc + digitVal c) 0 (Nat.toDigits 10 (n / 10)))
            = decodeDec (Nat.toDigits 10 (n / 10)) from rfl,
          ih (n / 10) hlt, digitVal_digitChar _ hmod]
      omega

theorem repr_injective : Function.Injective Nat.repr := by
  intro m n h
  have hd : Nat.toDigits 10 m = Nat.toDigits 10 n := by
    have := congrArg String.data h
    simpa [Nat.repr, List.asString] using this
  have := congrArg decodeDec hd
  rwa [decodeDec_toDigits, decodeDec_toDigits] at this

/-! ### RAG notebook: data model and operations

Embedding of the Pinecone RAG notebook.  External services are
abstract: the embedding model is a function (or, in the retry loop, a
sequence of attempt outcomes), the vector index query is a function
returning match lists.
-/

/-- The id attached to the description at global index `idx`:
the Python f-string `description_{idx}`. -/
def descrId (idx : Nat) : String := "description_" ++ Nat.repr idx

/-- The batch size of the upload loop: `batch_size = 100`. -/
def batch_size : Nat := 100

/-- Python `range(0, stop, step)` for a positive `step`: the arithmetic
sequence `0, step, 2*step, ...` of all multiples of `step` below `stop`. -/
def pyRange (stop step : Nat) : List Nat := (List.range ((stop + step - 1) / step)).map (· * step)

/-- The slice `descriptions[i:i_end]` with `i_end = min(len(descriptions), i+batch_size)`,
taken inside the upload loop body. -/
def sliceAt (l : List α) (i : Nat) : List α :=
  (l.drop i).take (min l.length (i + batch_size) - i)

/-- The successive `descriptions_batch` values of the upload loop
`for i in tqdm(range(0, len(descriptions), batch_size))`. -/
def batchSlices (l : List α) : List (List α) := (pyRange l.length batch_size).map (sliceAt l)

/-- A successful network request of the upload loop: one embedding call
(the one attempt of the retry loop that returns) or one upsert call. -/
inductive NetEvent (α : Type) where
  | embed : List α → NetEvent α
  | upsert : List α → NetEvent α
deriving DecidableEq, Repr

/-- The sequence of successful network requests the upload loop issues:
for each batch, one successful embedding request then one upsert, blocking. -/
def uploadTrace (l : List α) : List (NetEvent α) :=
  (pyRange l.length batch_size).flatMap (fun i => [NetEvent.embed (sliceAt l i), NetEvent.upsert (sliceAt l i)])

/-- The retry loop around the embedding call,
`done = False; while not done: try: res = vo.embed(...); done = True; except: sleep(5)`.
The embedding service is a sequence `attempts` of outcomes: `attempts t = some r`
when attempt `t` returns `r`, `none` when it raises (any exception whatever).
`t` is the next attempt index, `slept` the seconds slept so far; `fuel` bounds
how many attempts we unfold (the loop itself has no cap).  The result pairs the
value of `res` on exit with the total seconds slept; `none` means the loop is
still running after `fuel` attempts. -/
def retryEmbed (attempts : Nat → Option α) : Nat → Nat → Nat → Option (α × Nat)
  | 0, _, _ => none
  | fuel + 1, t, slept =>
    match attempts t with
    | some r => some (r, slept)
    | none => retryEmbed attempts fuel (t + 1) (slept + 5)

/-- The dataset loading loop:
`for line in file: try: data.append(eval(line)) except: pass`.
A line is `some r` when `eval` succeeds with `r` and `none` when it raises. -/
def loadData (lines : List (Option α)) : List α :=
  lines.foldl (fun acc line =>
    match line with
    | some r => acc ++ [r]
    | none => acc) []

/-- The dataset loading behaviour the claim asserts, written from the claim's
words: every failure other than the embedding call's propagates as an uncaught
exception, so a line whose `eval` raises aborts the whole load. -/
def loadDataClaimed : List (Option α) → Except Unit (List α)
  | [] => Except.ok []
  | some r :: rest => (loadDataClaimed rest).map (r :: ·)
  | none :: _ => Except.error ()

/-- The keyword-extraction cell `data = json.loads(keyword_json)` has no
handler: a parse failure (`none`) propagates as an uncaught exception. -/
def keywordParse : Option α → Except Unit α
  | some j => Except.ok j
  | none => Except.error ()

/-- The batch ids, `ids_batch = [f"description_{idx}" for idx in range(i, i_end)]`. -/
def ids_batch (i i_end : Nat) : List String := (List.range' i (i_end - i)).map descrId

/-- The batch metadata,
`metadata_batch = [{'description': description} for description in descriptions_batch]`:
each metadata value is a dictionary with the single key `description`. -/
def metadata_batch (batch : List String) : List (List (String × String)) :=
  batch.map (fun d => [("description", d)])

/-- The upsert payload, `to_upsert = list(zip(ids_batch, embeds, metadata_batch))`:
the positional
zip, a triple rendered as nested pairs; like Python `zip` it truncates to the
shortest input. -/
def to_upsert (ids : List String) (embeds : List E) (mds : List (List (String × String))) :
    List (String × E × List (String × String)) :=
  ids.zip (embeds.zip mds)

/-- All ids the upload loop attaches over an entire run on a dataset of
`n` descriptions, in upsert order. -/
def uploadIds (n : Nat) : List String :=
  (pyRange n batch_size).flatMap (fun i => ids_batch i (min n (i + batch_size)))

/-- One index query of the keyword search loop as issued:
`index.query(vector=query_embed.embeddings, top_k=3, include_metadata=True)`. -/
structure QueryCall (V : Type) where
  vector : V
  top_k : Nat
  include_metadata : Bool
deriving DecidableEq, Repr

/-- A match returned by the index, carrying its `metadata` dictionary; the
loop reads `search_result['metadata']['description']`. -/
structure QMatch where
  metadata_description : String
deriving DecidableEq, Repr

/-- The keyword search loop: for each keyword, embed it, query the index once
with `top_k=3, include_metadata=True`, and append the `description` metadata
field of every returned match to `results_list`.  Returns the list of issued
queries paired with the final `results_list`. -/
def keywordRun (embedQ : String → V) (query : V → List QMatch) (kws : List String) :
    List (QueryCall V) × List String :=
  kws.foldl (fun st kw =>
    let query_embed := embedQ kw
    let search_results := query query_embed
    (st.1 ++ [⟨query_embed, 3, true⟩],
     st.2 ++ search_results.map (fun m => m.metadata_description))) ([], [])

/-- The function `format_results` from the answering cell: wraps each retrieved text in an
`item`/`page_content` element and the whole in `search_results` tags. -/
def format_results (extracted : List String) : String :=
  let result := String.intercalate "\n"
    ((extracted.enum).map (fun p =>
      "<item index=\"" ++ Nat.repr (p.1 + 1) ++ "\">\n<page_content>\n" ++ p.2
        ++ "\n</page_content>\n</item>"))
  "\n<search_results>\n" ++ result ++ "\n</search_results>"

/-- The function `create_keyword_prompt` from the keyword-generation cell. -/
def create_keyword_prompt (question : String) : String :=
  "\n\nHuman: Given a question, generate a list of 5 very diverse search keywords that can be used to search for products on Amazon.\n\nThe question is: "
    ++ question
    ++ "\n\nOutput your keywords as a JSON that has one property \"keywords\" that is a list of strings. Only output valid JSON.\n\nAssistant:\x7b"

/-- The function `create_answer_prompt` from the answering cell. -/
def create_answer_prompt (results_list : List String) (question : String) : String :=
  "\n\nHuman: " ++ format_results results_list
    ++ " Using the search results provided within the <search_results></search_results> tags, please answer the following question <question>"
    ++ question
    ++ "</question>. Do not reference the search results in your answer.\n\nAssistant:"

/-! ### Structured-JSON notebook: extraction loops and tool schemas

Each example runs
`result = None; for content in response.content: if content.type == "tool_use" and content.name == NAME: result = content.input; break`
and then branches on the Python truthiness of `result`
(`if result: ... else: print(fallback)`).  A tool input is a JSON
object, modelled as an association list; the empty object is falsy.
-/

/-- A content block of an API response: its `type`, tool `name`, and tool
`input` (a JSON object as an association list of string keys). -/
structure ContentBlock (J : Type) where
  type : String
  name : String
  input : J
deriving DecidableEq, Repr

/-- The extraction loop with its `break`: the `input` of the first content
block whose `type` is `tool_use` and whose `name` is `toolName`, else `none`. -/
def extractLoop (toolName : String) : List (ContentBlock J) → Option J
  | [] => none
  | c :: rest =>
    if c.type = "tool_use" ∧ c.name = toolName then some c.input
    else extractLoop toolName rest

/-- Python truthiness of the result variable: `None` is falsy, and a JSON
object (dictionary) is truthy exactly when it is non-empty. -/
def pyTruthy (result : Option (List (String × String))) : Bool :=
  match result with
  | none => false
  | some j => !j.isEmpty

/-- The branch `if result: print(data) else: print(fallback)`: whether the example's
fallback message is printed. -/
def fallbackPrinted (result : Option (List (String × String))) : Bool :=
  !pyTruthy result

/-- The print branch of Example 5:
`if tool_output: print("Characteristics (JSON):"); print(json.dumps(json_classification, indent=2)) else: print("Something went wrong.")`.
Returns the value printed under the `Characteristics (JSON):` header,
`none` when that branch is not taken.  Note the code prints
`json_classification`, not `tool_output`. -/
def characteristicsPrinted (tool_output : Option (List (String × String)))
    (json_classification : List (String × String)) : Option (List (String × String)) :=
  if pyTruthy tool_output then some json_classification else none

/-- The `required` array of the `print_summary` input schema (Example 1). -/
def print_summary_required : List String :=
  ["author", "topics", "summary", "coherence", "persuasion", "counterpoint"]

/-- The keys of the `properties` object of the `print_summary` input schema. -/
def print_summary_properties : List String :=
  ["author", "topics", "summary", "coherence", "persuasion"]

/-- The `required` array of the `print_entities` input schema (Example 2). -/
def print_entities_required : List String := ["entities"]

/-- The keys of the `properties` object of the `print_entities` input schema. -/
def print_entities_properties : List String := ["entities"]

/-- The `required` array of the `print_sentiment_scores` input schema (Example 3). -/
def print_sentiment_scores_required : List String :=
  ["positive_score", "negative_score", "neutral_score"]

/-- The keys of the `properties` object of the `print_sentiment_scores` input schema. -/
def print_sentiment_scores_properties : List String :=
  ["positive_score", "negative_score", "neutral_score"]

/-- The `required` array of the `print_classification` input schema (Example 4). -/
def print_classification_required : List String := ["categories"]

/-- The keys of the `properties` object of the `print_classification` input schema. -/
def print_classification_properties : List String := ["categories"]

/-- The `required` array of the `print_all_characteristics` input schema
(Example 5): the schema declares none, and JSON Schema reads an absent
`required` as the empty list. -/
def print_all_characteristics_required : List String := []

/-- The keys of the `properties` object of the `print_all_characteristics`
input schema: the schema declares none (it relies on `additionalProperties`). -/
def print_all_characteristics_properties : List String := []

/-! ### Lemmas about the upload loop -/

theorem pyRange_bs_zero : pyRange 0 batch_size = [] := rfl

theorem pyRange_bs_pos (n : Nat) (hn : 0 < n) :
    pyRange n batch_size
      = 0 :: (pyRange (n - batch_size) batch_size).map (· + batch_size) := by
  have hc : (n + batch_size - 1) / batch_size
      = (n - batch_size + batch_size - 1) / batch_size + 1 := by
    simp only [batch_size]
    omega
  unfold pyRange
  rw [hc, List.range_succ_eq_map, List.map_cons, List.map_map, List.map_map]
  have hfun : ((· * batch_size) ∘ Nat.succ) = ((· + batch_size) ∘ (· * batch_size)) := by
    funext x
    simp [Nat.succ_mul]
  rw [hfun]
  simp

theorem sliceAt_zero (l : List α) : sliceAt l 0 = l.take batch_size := by
  simp only [sliceAt, Nat.add_zero, Nat.zero_add, List.drop_zero, Nat.sub_zero]
  rw [List.take_eq_take]
  omega

theorem sliceAt_add (l : List α) (i : Nat) :
    sliceAt l (i + batch_size) = sliceAt (l.drop batch_size) i := by
  simp only [sliceAt, List.drop_drop, List.length_drop]
  rw [show batch_size + i = i + batch_size from Nat.add_comm _ _]
  congr 1
  omega

theorem batchSlices_nil : batchSlices ([] : List α) = [] := by
  simp [batchSlices, pyRange, batch_size]

theorem batchSlices_cons (l : List α) (h : l ≠ []) :
    batchSlices l = l.take batch_size :: batchSlices (l.drop batch_size) := by
  have hn : 0 < l.length := List.length_pos.mpr h
  unfold batchSlices
  rw [pyRange_bs_pos l.length hn, List.map_cons, sliceAt_zero, List.map_map]
  have hfun : (sliceAt l ∘ (· + batch_size)) = sliceAt (l.drop batch_size) := by
    funext i
    exact sliceAt_add l i
  rw [hfun, List.length_drop]

theorem batchSlices_flatten_aux :
    ∀ (fuel : Nat) (l : List α), l.length ≤ fuel → (batchSlices l).flatten = l := by
  intro fuel
  induction fuel with
  | zero =>
    intro l hl
    have : l = [] := List.eq_nil_of_length_eq_zero (by omega)
    subst this
    rw [batchSlices_nil]; rfl
  | succ f ih =>
    intro l hl
    by_cases h : l = []
    · subst h; rw [batchSlices_nil]; rfl
    · have hn : 0 < l.length := List.length_pos.mpr h
      rw [batchSlices_cons l h, List.flatten_cons,
          ih (l.drop batch_size) (by simp only [List.length_drop, batch_size] at *; omega)]
      exact List.take_append_drop _ l

theorem batchSlices_flatten (l : List α) : (batchSlices l).flatten = l :=
  batchSlices_flatten_aux l.length l le_rfl

theorem batchSlices_bounds_aux :
    ∀ (fuel : Nat) (l : List α), l.length ≤ fuel →
      ∀ b ∈ batchSlices l, 1 ≤ b.length ∧ b.length ≤ batch_size := by
  intro fuel
  induction fuel with
  | zero =>
    intro l hl b hb
    have : l = [] := List.eq_nil_of_length_eq_zero (by omega)
    subst this
    simp [batchSlices_nil] at hb
  | succ f ih =>
    intro l hl b hb
    by_cases h : l = []
    · subst h; simp [batchSlices_nil] at hb
    · have hn : 0 < l.length := List.length_pos.mpr h
      rw [batchSlices_cons l h] at hb
      rcases List.mem_cons.mp hb with hb | hb
      · subst hb
        simp only [List.length_take]
        constructor
        · simp only [batch_size]; omega
        · omega
      · exact ih (l.drop batch_size)
          (by simp only [List.length_drop, batch_size] at *; omega) b hb

theorem uploadTrace_eq (l : List α) :
    uploadTrace l
      = (batchSlices l).flatMap (fun b => [NetEvent.embed b, NetEvent.upsert b]) := by
  unfold uploadTrace batchSlices
  rw [List.flatMap_map]

/-! ### Lemmas about the run's ids -/

theorem descrId_injective : Function.Injective descrId := by
  intro m n h
  have hd : ("description_".data ++ (Nat.repr m).data)
      = ("description_".data ++ (Nat.repr n).data) := by
    have := congrArg String.data h
    simpa [descrId, String.data_append] using this
  have hr : (Nat.repr m).data = (Nat.repr n).data := List.append_cancel_left hd
  have : Nat.repr m = Nat.repr n := by
    cases hm : Nat.repr m
    cases hn : Nat.repr n
    simp only [hm, hn] at hr
    exact congrArg String.mk hr
  exact repr_injective this

theorem range'_shift (s c k : Nat) :
    List.range' (s + k) c = (List.range' s c).map (· + k) := by
  rw [List.range'_eq_map_range, List.range'_eq_map_range, List.map_map]
  apply List.map_congr_left
  intro x _
  simp only [Function.comp_apply]
  omega

theorem uploadIdx_aux :
    ∀ (fuel n : Nat), n ≤ fuel →
      (pyRange n batch_size).flatMap
          (fun i => List.range' i (min n (i + batch_size) - i))
        = List.range n := by
  intro fuel
  induction fuel with
  | zero =>
    intro n hn
    have : n = 0 := by omega
    subst this
    rw [pyRange_bs_zero]
    rfl
  | succ f ih =>
    intro n hn
    by_cases h0 : n = 0
    · subst h0
      rw [pyRange_bs_zero]
      rfl
    · rw [pyRange_bs_pos n (by omega), List.flatMap_cons, List.flatMap_map]
      have hshift : (fun i => List.range' (i + batch_size)
              (min n (i + batch_size + batch_size) - (i + batch_size)))
            = (fun i => (List.range' i (min (n - batch_size) (i + batch_size) - i)).map
                (· + batch_size)) := by
        funext i
        have hc : min n (i + batch_size + batch_size) - (i + batch_size)
            = min (n - batch_size) (i + batch_size) - i := by omega
        rw [hc]
        exact range'_shift i (min (n - batch_size) (i + batch_size) - i) batch_size
      calc (List.range' 0 (min n (0 + batch_size) - 0))
            ++ (pyRange (n - batch_size) batch_size).flatMap
                (fun i => List.range' (i + batch_size)
                  (min n (i + batch_size + batch_size) - (i + batch_size)))
          = (List.range' 0 (min n batch_size))
            ++ ((pyRange (n - batch_size) batch_size).flatMap
                (fun i => List.range' i (min (n - batch_size) (i + batch_size) - i))).map
                  (· + batch_size) := by
            rw [List.map_flatMap, hshift,
                show min n (0 + batch_size) - 0 = min n batch_size by omega]
        _ = (List.range' 0 (min n batch_size))
            ++ (List.range (n - batch_size)).map (· + batch_size) := by
            rw [ih (n - batch_size) (by simp only [batch_size] at *; omega)]
        _ = List.range n := by
            rw [show ((List.range (n - batch_size)).map (· + batch_size))
                  = List.range' batch_size (n - batch_size) by
                rw [List.range'_eq_map_range]
                apply List.map_congr_left
                intro x _
                omega]
            by_cases hge : batch_size ≤ n
            · rw [show min n batch_size = batch_size by omega]
              rw [show (List.range' batch_size (n - batch_size))
                    = List.range' (0 + batch_size) (n - batch_size) by simp]
              rw [List.range'_append_1, List.range_eq_range']
              congr 1
              omega
            · rw [show min n batch_size = n by omega,
                  show n - batch_size = 0 by omega]
              simp [List.range_eq_range']

theorem uploadIds_eq (n : Nat) : uploadIds n = (List.range n).map descrId := by
  unfold uploadIds ids_batch
  rw [← List.map_flatMap, uploadIdx_aux n n le_rfl]

/-! ### Lemmas about the retry loop -/

theorem retryEmbed_spec (attempts : Nat → Option α) :
    ∀ (fuel t slept k : Nat) (r : α), t ≤ k → attempts k = some r →
      (∀ j, t ≤ j → j < k → attempts j = none) → k - t < fuel →
      retryEmbed attempts fuel t slept = some (r, slept + 5 * (k - t)) := by
  intro fuel
  induction fuel with
  | zero => intro t slept k r _ _ _ hfuel; omega
  | succ f ih =>
    intro t slept k r htk hk hfail hfuel
    simp only [retryEmbed]
    cases hE : attempts t with
    | some x =>
      have htk' : t = k := by
        by_contra hne
        have := hfail t le_rfl (by omega)
        rw [this] at hE
        cases hE
      subst htk'
      rw [hk] at hE
      injection hE with hx
      subst hx
      simp
    | none =>
      have htk' : t < k := by
        rcases Nat.lt_or_ge t k with h | h
        · exact h
        · have : t = k := by omega
          subst this
          rw [hk] at hE
          cases hE
      have hrec := ih (t + 1) (slept + 5) k r (by omega) hk
        (fun j hj1 hj2 => hfail j (by omega) hj2) (by omega)
      have harith : slept + 5 + 5 * (k - (t + 1)) = slept + 5 * (k - t) := by omega
      rw [hrec, harith]

theorem retryEmbed_none (attempts : Nat → Option α) :
    ∀ (fuel t slept : Nat), (∀ j, t ≤ j → j < t + fuel → attempts j = none) →
      retryEmbed attempts fuel t slept = none := by
  intro fuel
  induction fuel with
  | zero => intro t slept _; rfl
  | succ f ih =>
    intro t slept h
    simp only [retryEmbed]
    rw [h t le_rfl (by omega)]
    exact ih (t + 1) (slept + 5) (fun j hj1 hj2 => h j (by omega) (by omega))

theorem retryEmbed_some_succeeds (attempts : Nat → Option α) :
    ∀ (fuel t slept : Nat) (x : α × Nat), retryEmbed attempts fuel t slept = some x →
      ∃ k, t ≤ k ∧ (attempts k).isSome := by
  intro fuel
  induction fuel with
  | zero => intro t slept x h; cases h
  | succ f ih =>
    intro t slept x h
    simp only [retryEmbed] at h
    cases hE : attempts t with
    | some r => exact ⟨t, le_rfl, by simp [hE]⟩
    | none =>
      rw [hE] at h
      obtain ⟨k, hk1, hk2⟩ := ih (t + 1) (slept + 5) x h
      exact ⟨k, by omega, hk2⟩

/-! ### Lemmas about the keyword search loop -/

theorem keywordRun_foldl (embedQ : String → V) (query : V → List QMatch) :
    ∀ (kws : List String) (acc : List (QueryCall V) × List String),
      List.foldl (fun st kw =>
          (st.1 ++ [⟨embedQ kw, 3, true⟩],
           st.2 ++ (query (embedQ kw)).map (fun m => m.metadata_description))) acc kws
        = (acc.1 ++ kws.map (fun kw => ⟨embedQ kw, 3, true⟩),
           acc.2 ++ kws.flatMap (fun kw =>
             (query (embedQ kw)).map (fun m => m.metadata_description))) := by
  intro kws
  induction kws with
  | nil => intro acc; simp
  | cons kw rest ih =>
    intro acc
    rw [List.foldl_cons, ih]
    simp

theorem flatMap_length_le (kws : List String) (f : String → List String)
    (h : ∀ kw ∈ kws, (f kw).length ≤ 3) :
    (kws.flatMap f).length ≤ 3 * kws.length := by
  induction kws with
  | nil => simp
  | cons kw rest ih =>
    rw [List.flatMap_cons, List.length_append, List.length_cons]
    have h1 := h kw (List.mem_cons_self kw rest)
    have h2 := ih (fun k hk => h k (List.mem_cons_of_mem kw hk))
    omega

/-! ### Lemmas about the batch zip -/

theorem getElem?_zip_of_some (a : List α) (b : List β) (j : Nat) (x : α) (y : β)
    (hx : a[j]? = some x) (hy : b[j]? = some y) : (a.zip b)[j]? = some (x, y) :=
  List.getElem?_zip_eq_some.mpr ⟨hx, hy⟩

theorem getElem?_sliceAt (l : List α) (i j : Nat)
    (hj : j < (sliceAt l i).length) : (sliceAt l i)[j]? = l[i + j]? := by
  unfold sliceAt at *
  rw [List.length_take, List.length_drop] at hj
  rw [List.getElem?_take_of_lt (by omega), List.getElem?_drop]

theorem getElem?_ids_batch (i i_end j : Nat) (hj : j < i_end - i) :
    (ids_batch i i_end)[j]? = some (descrId (i + j)) := by
  unfold ids_batch
  rw [List.getElem?_map]
  rw [List.getElem?_eq_getElem (by simpa using hj)]
  simp

/-! ### Lemmas about the extraction loop -/

theorem extractLoop_eq_none_iff (toolName : String) :
    ∀ content : List (ContentBlock J),
      extractLoop toolName content = none
        ↔ ∀ c ∈ content, ¬(c.type = "tool_use" ∧ c.name = toolName) := by
  intro content
  induction content with
  | nil => simp [extractLoop]
  | cons c rest ih =>
    simp only [extractLoop]
    by_cases h : c.type = "tool_use" ∧ c.name = toolName
    · simp [h]
    · simp only [h, if_false, ih, List.mem_cons]
      constructor
      · intro hall c' hc'
        rcases hc' with hc' | hc'
        · subst hc'; exact h
        · exact hall c' hc'
      · intro hall c' hc'
        exact hall c' (Or.inr hc')

theorem extractLoop_first (toolName : String) :
    ∀ (l₁ : List (ContentBlock J)) (c : ContentBlock J) (l₂ : List (ContentBlock J)),
      c.type = "tool_use" → c.name = toolName →
      (∀ c' ∈ l₁, ¬(c'.type = "tool_use" ∧ c'.name = toolName)) →
      extractLoop toolName (l₁ ++ c :: l₂) = some c.input := by
  intro l₁
  induction l₁ with
  | nil =>
    intro c l₂ ht hn _
    simp [extractLoop, ht, hn]
  | cons c' rest ih =>
    intro c l₂ ht hn hnone
    have h' : ¬(c'.type = "tool_use" ∧ c'.name = toolName) :=
      hnone c' (List.mem_cons_self c' rest)
    simp only [List.cons_append, extractLoop, h', if_false]
    exact ih c l₂ ht hn (fun x hx => hnone x (List.mem_cons_of_mem c' hx))

/-! ### Lemmas about the dataset loading loop -/

theorem loadData_foldl (lines : List (Option α)) :
    ∀ acc : List α,
      List.foldl (fun acc line =>
        match line with
        | some r => acc ++ [r]
        | none => acc) acc lines = acc ++ lines.filterMap id := by
  induction lines with
  | nil => intro acc; simp
  | cons line rest ih =>
    intro acc
    cases line with
    | some r =>
      rw [List.foldl_cons]
      simp only [ih, List.filterMap_cons]
      simp
    | none =>
      rw [List.foldl_cons]
      simp [ih, List.filterMap_cons]

theorem loadData_eq_filterMap (lines : List (Option α)) :
    loadData lines = lines.filterMap id := by
  unfold loadData
  rw [loadData_foldl]
  simp

/-! ### The claims -/

/-- C1: for every batch, the retry loop around the embedding call catches any
exception (an attempt that raises is `attempts t = none`, whatever the
exception), sleeps a fixed 5 seconds after each failed attempt, and retries
with no cap and no backoff: it terminates if and only if some attempt of
`vo.embed` returns without raising, on exit `res` holds the result of the
first successful attempt, and the time slept is 5 seconds per failed attempt
before it. -/
theorem claimC1_embed_retry_loop {α : Type} (attempts : Nat → Option α) :
    ((∃ fuel, (retryEmbed attempts fuel 0 0).isSome) ↔ (∃ k, (attempts k).isSome))
    ∧ (∀ k r, attempts k = some r → (∀ j, j < k → attempts j = none) →
        ∀ fuel, k < fuel → retryEmbed attempts fuel 0 0 = some (r, 5 * k))
    ∧ (∀ fuel, (∀ j, j < fuel → attempts j = none) →
        retryEmbed attempts fuel 0 0 = none) := by
  refine ⟨⟨?_, ?_⟩, ?_, ?_⟩
  · rintro ⟨fuel, hf⟩
    obtain ⟨x, hx⟩ := Option.isSome_iff_exists.mp hf
    obtain ⟨k, _, hk⟩ := retryEmbed_some_succeeds attempts fuel 0 0 x hx
    exact ⟨k, hk⟩
  · rintro ⟨k, hk⟩
    have hex : ∃ m, (attempts m).isSome := ⟨k, hk⟩
    obtain ⟨r, hr⟩ := Option.isSome_iff_exists.mp (Nat.find_spec hex)
    refine ⟨Nat.find hex + 1, ?_⟩
    rw [retryEmbed_spec attempts (Nat.find hex + 1) 0 0 (Nat.find hex) r
        (Nat.zero_le _) hr ?_ (by omega)]
    · simp
    · intro j _ hj
      have := Nat.find_min hex hj
      simpa [Option.not_isSome_iff_eq_none] using this
  · intro k r hk hfail fuel hfuel
    have := retryEmbed_spec attempts fuel 0 0 k r (Nat.zero_le _) hk
      (fun j _ hj => hfail j hj) (by omega)
    simpa using this
  · intro fuel hfail
    exact retryEmbed_none attempts fuel 0 0 (fun j _ hj => hfail j (by omega))

/-- A concrete attempt sequence: the first two embedding attempts raise,
the third returns 42. -/
def c1Attempts (t : Nat) : Option Nat := if t = 2 then some 42 else none

/-- Witness for C1: on `c1Attempts` the loop exits with the first successful
result 42 after sleeping 5 seconds for each of the two failed attempts. -/
theorem claimC1_embed_retry_loop_witness :
    retryEmbed c1Attempts 5 0 0 = some (42, 10) := by
  have h := (claimC1_embed_retry_loop c1Attempts).2.1 2 42 (by simp [c1Attempts])
    (fun j hj => by simp only [c1Attempts]; rw [if_neg (by omega)]) 5 (by omega)
  simpa using h

/-- C2 as amended: the dataset loading loop is a second error handler — it
catches any exception from `eval(line)` and skips the line, so loading never
fails and returns exactly the successfully parsed lines — while the
keyword-JSON parse (`json.loads`) has no handler and propagates failure. -/
theorem claimC2_error_handling_amended {α : Type} (lines : List (Option α)) :
    loadData lines = lines.filterMap id
    ∧ (∀ j : α, keywordParse (some j) = Except.ok j)
    ∧ keywordParse (none : Option α) = Except.error () :=
  ⟨loadData_eq_filterMap lines, fun _ => rfl, rfl⟩

/-- Counterexample to C2 as stated: a dataset with a malformed middle line
does not propagate an uncaught exception — the code (`loadData`) swallows the
failure and completes with the two good lines, unlike the claimed behaviour
(`loadDataClaimed`), which would abort. -/
theorem claimC2_error_handling_counterexample :
    loadData [some 1, none, some 2] = ([1, 2] : List Nat)
    ∧ loadDataClaimed [some 1, none, some 2] = (Except.error () : Except Unit (List Nat)) := by
  constructor <;> rfl

/-- Witness for the amended C2 at a concrete dataset: the malformed line is
skipped. -/
theorem claimC2_error_handling_amended_witness :
    loadData [some 7, none] = ([7] : List Nat) :=
  (claimC2_error_handling_amended [some 7, none]).1.trans (by rfl)

/-- C3 as amended: `format_results`, `create_keyword_prompt` and
`create_answer_prompt` are deterministic client-side logic — each output is a
function of the explicit inputs alone, so two runs on equal inputs produce
equal outputs; only the calls into the model and the index depend on external
responses. -/
theorem claimC3_deterministic_functions_amended (xs ys : List String) (q r : String)
    (hx : xs = ys) (hq : q = r) :
    format_results xs = format_results ys
    ∧ create_keyword_prompt q = create_keyword_prompt r
    ∧ create_answer_prompt xs q = create_answer_prompt ys r := by
  subst hx
  subst hq
  exact ⟨rfl, rfl, rfl⟩

/-- Counterexample to C3 as stated: `format_results` at a concrete input
evaluates to a fixed literal determined by that input alone, refuting the
claim that no notebook function is a function of its explicit inputs. -/
theorem claimC3_deterministic_functions_counterexample :
    format_results ["A"]
      = "\n<search_results>\n<item index=\"1\">\n<page_content>\nA\n</page_content>\n</item>\n</search_results>" := by
  rfl

/-- Witness for the amended C3: equal inputs give equal outputs at a concrete
instance. -/
theorem claimC3_deterministic_functions_amended_witness :
    format_results ["a"] = format_results ["a"]
    ∧ create_keyword_prompt "q" = create_keyword_prompt "q"
    ∧ create_answer_prompt ["a"] "q" = create_answer_prompt ["a"] "q" :=
  claimC3_deterministic_functions_amended ["a"] ["a"] "q" "q" rfl rfl

/-- C4: the upload loop walks the description list in consecutive slices
`descriptions[i : min(len(descriptions), i+100)]` for `i = 0, 100, 200, ...`:
every slice has between 1 and 100 elements, the slices concatenate in order
to the original list, and each slice triggers exactly one successful
embedding request followed by exactly one upsert request, sequentially. -/
theorem claimC4_batch_upload_loop {α : Type} (descriptions : List α) :
    (batchSlices descriptions).flatten = descriptions
    ∧ (∀ b ∈ batchSlices descriptions, 1 ≤ b.length ∧ b.length ≤ 100)
    ∧ uploadTrace descriptions
        = (batchSlices descriptions).flatMap
            (fun b => [NetEvent.embed b, NetEvent.upsert b]) := by
  refine ⟨batchSlices_flatten descriptions, ?_, uploadTrace_eq descriptions⟩
  have h := batchSlices_bounds_aux descriptions.length descriptions le_rfl
  simpa [batch_size] using h

/-- Witness for C4: a concrete two-element dataset forms a single batch whose
length is between 1 and 100. -/
theorem claimC4_batch_upload_loop_witness :
    1 ≤ ([5, 6] : List Nat).length ∧ ([5, 6] : List Nat).length ≤ 100 :=
  (claimC4_batch_upload_loop [5, 6]).2.1 [5, 6] (by decide)

theorem sliceAt_length (l : List α) (i : Nat) :
    (sliceAt l i).length = min l.length (i + batch_size) - i := by
  simp only [sliceAt, List.length_take, List.length_drop]
  omega

/-- C5: for a batch starting at global index `i`, the triples passed to
`index.upsert` are exactly the positional zip of ids, embeddings and
metadata: the `j`-th triple is `("description_{i+j}", res.embeddings[j],
a dictionary whose single key "description" maps to descriptions[i+j])`. -/
theorem claimC5_to_upsert_triples {E : Type} (descriptions : List String)
    (embeds : List E) (i j : Nat) (e : E) (d : String)
    (hj : j < (sliceAt descriptions i).length)
    (he : embeds[j]? = some e)
    (hd : descriptions[i + j]? = some d) :
    (to_upsert (ids_batch i (min descriptions.length (i + batch_size))) embeds
        (metadata_batch (sliceAt descriptions i)))[j]?
      = some (descrId (i + j), e, [("description", d)]) := by
  have hlen := sliceAt_length descriptions i
  unfold to_upsert
  apply getElem?_zip_of_some
  · exact getElem?_ids_batch i _ j (by omega)
  · apply getElem?_zip_of_some
    · exact he
    · unfold metadata_batch
      rw [List.getElem?_map, getElem?_sliceAt descriptions i j hj, hd]
      rfl

/-- Witness for C5: on a concrete two-description dataset with batch start 0,
position 1 of `to_upsert` pairs id `description_1`, the second embedding, and
the metadata dictionary of the second description. -/
theorem claimC5_to_upsert_triples_witness :
    (to_upsert (ids_batch 0 (min (["a", "b"] : List String).length (0 + batch_size)))
        [10, 20] (metadata_batch (sliceAt ["a", "b"] 0)))[1]?
      = some (descrId (0 + 1), 20, [("description", "b")]) :=
  claimC5_to_upsert_triples ["a", "b"] [10, 20] 0 1 20 "b" (by decide) (by decide) (by decide)

/-- C6: the keyword search loop issues exactly one index query per keyword,
in keyword order, each with `top_k = 3` and `include_metadata = True`; the
`description` metadata field of each returned match is appended to
`results_list` in keyword order, so `results_list` holds at most
`3 * len(keywords_list)` descriptions; and no result re-enters a query — the
issued queries are a function of the keyword list alone. -/
theorem claimC6_keyword_search {V : Type} (embedQ : String → V)
    (query : V → List QMatch) (keywords_list : List String)
    (hq : ∀ kw ∈ keywords_list, (query (embedQ kw)).length ≤ 3) :
    (keywordRun embedQ query keywords_list).1
        = keywords_list.map (fun kw => ⟨embedQ kw, 3, true⟩)
    ∧ (keywordRun embedQ query keywords_list).2
        = keywords_list.flatMap
            (fun kw => (query (embedQ kw)).map (fun m => m.metadata_description))
    ∧ (keywordRun embedQ query keywords_list).2.length ≤ 3 * keywords_list.length := by
  have h := keywordRun_foldl embedQ query keywords_list ([], [])
  have h1 : keywordRun embedQ query keywords_list
      = (keywords_list.map (fun kw => ⟨embedQ kw, 3, true⟩),
         keywords_list.flatMap
           (fun kw => (query (embedQ kw)).map (fun m => m.metadata_description))) := by
    unfold keywordRun
    simpa using h
  refine ⟨by rw [h1], by rw [h1], ?_⟩
  rw [h1]
  exact flatMap_length_le keywords_list _
    (fun kw hkw => by rw [List.length_map]; exact hq kw hkw)

/-- A concrete index: every query returns a single match. -/
def c6Query (v : String) : List QMatch := [⟨"toy " ++ v⟩]

/-- Witness for C6: with one keyword and an index returning one match,
`results_list` stays within the 3-per-keyword bound. -/
theorem claimC6_keyword_search_witness :
    (keywordRun (fun s => s) c6Query ["kit"]).2.length ≤ 3 * (["kit"] : List String).length :=
  (claimC6_keyword_search (fun s => s) c6Query ["kit"]
    (fun kw _ => by simp [c6Query])).2.2

/-- C7 as amended: the extraction loop sets its result to the input of the
first `tool_use` block whose name matches, and the result stays `None` iff no
such block exists; but the fallback message is printed iff the result is
`None` or the first matching block's input is the empty object — Python
truthiness, not a `None` test, decides the branch. -/
theorem claimC7_extraction_loop_amended (toolName : String)
    (content : List (ContentBlock (List (String × String)))) :
    (extractLoop toolName content = none
      ↔ ∀ c ∈ content, ¬(c.type = "tool_use" ∧ c.name = toolName))
    ∧ (∀ (l₁ : List (ContentBlock (List (String × String))))
        (c : ContentBlock (List (String × String))) l₂,
        content = l₁ ++ c :: l₂ → c.type = "tool_use" → c.name = toolName →
        (∀ c' ∈ l₁, ¬(c'.type = "tool_use" ∧ c'.name = toolName)) →
        extractLoop toolName content = some c.input)
    ∧ (fallbackPrinted (extractLoop toolName content) = true
      ↔ (extractLoop toolName content = none
          ∨ extractLoop toolName content = some [])) := by
  refine ⟨extractLoop_eq_none_iff toolName content, ?_, ?_⟩
  · intro l₁ c l₂ hsplit ht hn hnone
    subst hsplit
    exact extractLoop_first toolName l₁ c l₂ ht hn hnone
  · cases hE : extractLoop toolName content with
    | none => simp [fallbackPrinted, pyTruthy]
    | some j =>
      cases j with
      | nil => simp [fallbackPrinted, pyTruthy]
      | cons a rest => simp [fallbackPrinted, pyTruthy]

/-- Counterexample to C7 as stated: a response whose only block is a matching
`tool_use` block with the empty object as input — the result is not `None`
(a block exists), yet the fallback message is printed, refuting "the fallback
is printed if and only if no such block exists". -/
theorem claimC7_extraction_loop_counterexample :
    extractLoop "print_summary"
        [ContentBlock.mk "tool_use" "print_summary" ([] : List (String × String))]
      = some []
    ∧ fallbackPrinted (extractLoop "print_summary"
        [ContentBlock.mk "tool_use" "print_summary" ([] : List (String × String))])
      = true := by
  decide

/-- Witness for the amended C7: on a response with a non-matching text block
followed by a matching `tool_use` block, the loop returns the input of that
first matching block. -/
theorem claimC7_extraction_loop_amended_witness :
    extractLoop "print_entities"
        [ContentBlock.mk "text" "x" ([] : List (String × String)),
         ContentBlock.mk "tool_use" "print_entities" [("k", "v")]]
      = some [("k", "v")] :=
  (claimC7_extraction_loop_amended "print_entities"
      [ContentBlock.mk "text" "x" [], ContentBlock.mk "tool_use" "print_entities" [("k", "v")]]).2.1
    [ContentBlock.mk "text" "x" []]
    (ContentBlock.mk "tool_use" "print_entities" [("k", "v")]) [] rfl rfl rfl (by decide)

/-- C8 as amended: in Example 5, whenever a `print_all_characteristics`
tool_use block is found and `tool_output` is truthy (a non-empty object), the
value printed under "Characteristics (JSON):" is `json_classification` — the
Example 4 result — and not `tool_output`. -/
theorem claimC8_characteristics_print_amended
    (content : List (ContentBlock (List (String × String))))
    (j json_classification : List (String × String))
    (hfound : extractLoop "print_all_characteristics" content = some j)
    (hne : j ≠ []) :
    characteristicsPrinted (extractLoop "print_all_characteristics" content)
        json_classification
      = some json_classification
    ∧ (json_classification ≠ j →
        characteristicsPrinted (extractLoop "print_all_characteristics" content)
            json_classification
          ≠ some j) := by
  rw [hfound]
  have ht : pyTruthy (some j) = true := by
    cases j with
    | nil => exact absurd rfl hne
    | cons a rest => simp [pyTruthy]
  constructor
  · simp [characteristicsPrinted, ht]
  · intro hne2
    simp only [characteristicsPrinted, ht, if_true]
    intro hcontra
    injection hcontra with hcontra
    exact hne2 hcontra

/-- Counterexample to C8 as stated: a matching `tool_use` block whose input
is the empty object makes `tool_output` non-`None`, yet nothing at all is
printed under "Characteristics (JSON):" — the branch tests truthiness, not
`None`. -/
theorem claimC8_characteristics_print_counterexample :
    extractLoop "print_all_characteristics"
        [ContentBlock.mk "tool_use" "print_all_characteristics"
          ([] : List (String × String))]
      = some []
    ∧ characteristicsPrinted
        (extractLoop "print_all_characteristics"
          [ContentBlock.mk "tool_use" "print_all_characteristics"
            ([] : List (String × String))])
        [("categories", "x")]
      = none := by
  decide

/-- Witness for the amended C8: with a truthy tool input, the printed value
is the Example 4 classification, not the extracted characteristics. -/
theorem claimC8_characteristics_print_amended_witness :
    characteristicsPrinted
        (extractLoop "print_all_characteristics"
          [ContentBlock.mk "tool_use" "print_all_characteristics" [("age", "28")]])
        [("cat", "1")]
      = some [("cat", "1")] :=
  (claimC8_characteristics_print_amended
      [ContentBlock.mk "tool_use" "print_all_characteristics" [("age", "28")]]
      [("age", "28")] [("cat", "1")] (by decide) (by decide)).1

/-- C9: the `print_summary` input schema lists `counterpoint` in `required`
while `counterpoint` is absent from its `properties` keys, so its required
set is not a subset of its declared properties; the other four tool schemas
do have `required` a subset of their declared properties. -/
theorem claimC9_tool_schemas :
    "counterpoint" ∈ print_summary_required
    ∧ "counterpoint" ∉ print_summary_properties
    ∧ ¬(∀ k ∈ print_summary_required, k ∈ print_summary_properties)
    ∧ (∀ k ∈ print_entities_required, k ∈ print_entities_properties)
    ∧ (∀ k ∈ print_sentiment_scores_required, k ∈ print_sentiment_scores_properties)
    ∧ (∀ k ∈ print_classification_required, k ∈ print_classification_properties)
    ∧ (∀ k ∈ print_all_characteristics_required, k ∈ print_all_characteristics_properties) := by
  decide

/-- Witness for C9: the `entities` key required by `print_entities` is among
its declared properties. -/
theorem claimC9_tool_schemas_witness :
    "entities" ∈ print_entities_properties :=
  claimC9_tool_schemas.2.2.2.1 "entities" (by decide)

/-- C10: across an entire run of the upload loop on `n` descriptions, the
description at global index `k` receives id `description_k`, the map
`k ↦ description_k` is injective over the naturals, and the run's ids are
pairwise distinct, so no upsert reuses or overwrites another's id. -/
theorem claimC10_unique_upload_ids (n : Nat) :
    Function.Injective descrId
    ∧ uploadIds n = (List.range n).map descrId
    ∧ (∀ k, k < n → (uploadIds n)[k]? = some (descrId k))
    ∧ (uploadIds n).Nodup := by
  refine ⟨descrId_injective, uploadIds_eq n, ?_, ?_⟩
  · intro k hk
    rw [uploadIds_eq n, List.getElem?_map, List.getElem?_range hk]
    rfl
  · rw [uploadIds_eq n]
    exact (List.nodup_range n).map descrId_injective

/-- Witness for C10: a run over two descriptions produces the two distinct
ids `description_0` and `description_1`. -/
theorem claimC10_unique_upload_ids_witness :
    uploadIds 2 = ["description_0", "description_1"]
    ∧ (uploadIds 2)[1]? = some (descrId 1) :=
  ⟨(claimC10_unique_upload_ids 2).2.1.trans (by decide),
   (claimC10_unique_upload_ids 2).2.2.1 1 (by decide)⟩
